import Mathlib

/-!
# Verification of the simple round-robin load balancer

Shallow embedding of the Go sources of `simple-load-balancer`
(`main.go`), covering the round-robin selector (`getNextServer`),
the periodic health check (`healthChecks`), the request dispatch
handler installed in `main`, and startup initialization.

Modelling choices:
* Go machine integers are modelled as `Nat`; the cursor `Current`
  starts at 0 and is only ever incremented, so no overflow semantics
  are relevant at the scales considered.
* `*url.URL` is modelled by its string form (the code only ever uses
  `s.URL.String()` and the opaque proxy target).
* Pointer mutation of the `LoadBalancer` and of the `Server` structs
  becomes explicit state passing: `getNextServer` takes and returns
  the load-balancer state and the server list.  The mutex-guarded
  read of `IsHealthy` is a pure field read followed by writing the
  (unchanged) server back at its index, mirroring the lock / read /
  unlock block of the source.
-/

/-- `type Server struct { URL *url.URL; IsHealthy bool; Mutex sync.Mutex }`.
The mutex has no pure content; `URL` is kept as its string rendering. -/
structure Server where
  URL : String
  IsHealthy : Bool
deriving DecidableEq, Repr

/-- `type LoadBalancer struct { Current int; Mutex sync.Mutex }`. -/
structure LoadBalancer where
  Current : Nat
deriving DecidableEq, Repr

/-- Placeholder element used for the (never reached out of bounds)
`servers[idx]` read; the loop body only runs when `idx < servers.length`. -/
def defaultServer : Server := { URL := "", IsHealthy := false }

/-- The `for i := 0; i < len(servers); i++` loop body of `getNextServer`
(main.go lines 106–118).  The first argument is the number of remaining
iterations (`len(servers) - i`), the second the current value of
`lb.Current`, the third the server slice.  Each iteration:
`idx := lb.Current % len(servers)`, `nextServer := servers[idx]`,
`lb.Current++`, then the mutex-guarded read of `nextServer.IsHealthy`
(modelled as a field read plus writing the unchanged struct back),
returning `nextServer` when healthy. -/
def getNextServerLoop : Nat → Nat → List Server → Option Server × Nat × List Server
  | 0, current, servers => (none, current, servers)
  | Nat.succ fuel, current, servers =>
    let idx := current % servers.length
    let nextServer := servers.getD idx defaultServer
    let current' := current + 1
    let isHealthy := nextServer.IsHealthy
    let servers' := servers.set idx nextServer
    if isHealthy then (some nextServer, current', servers')
    else getNextServerLoop fuel current' servers'

/-- `func (lb *LoadBalancer) getNextServer(servers []*Server) *Server`
(main.go lines 102–121): run the scan loop for `len(servers)` attempts,
returning the selected server (or `none`) together with the updated
load-balancer state and server list. -/
def getNextServer (lb : LoadBalancer) (servers : List Server) :
    Option Server × LoadBalancer × List Server :=
  let r := getNextServerLoop servers.length lb.Current servers
  (r.1, ⟨r.2.1⟩, r.2.2)

/-- The load-balancer state after `k` successive calls of `getNextServer`
over a fixed server list (the list itself is returned unchanged by every
call, see `getNextServerLoop_servers`, so it is threaded as a constant). -/
def lbAfterCalls (servers : List Server) (lb : LoadBalancer) : Nat → LoadBalancer
  | 0 => lb
  | k + 1 => (getNextServer (lbAfterCalls servers lb k) servers).2.1

/-- The server returned by the `(k+1)`-th call of `getNextServer`
(0-indexed `k`), starting from state `lb`. -/
def callResult (servers : List Server) (lb : LoadBalancer) (k : Nat) : Option Server :=
  (getNextServer (lbAfterCalls servers lb k) servers).1

/-- The results of `n` successive calls of `getNextServer`. -/
def callResults (servers : List Server) (lb : LoadBalancer) (n : Nat) : List (Option Server) :=
  (List.range n).map (callResult servers lb)

/-- Outcome of one health probe: `client.Head` either fails with a transport
error (`err != nil`, which includes the 5-second client timeout) or yields a
response with some status code. -/
inductive ProbeOutcome where
  | transportError : ProbeOutcome
  | response (statusCode : Nat) : ProbeOutcome
deriving DecidableEq, Repr

/-- One iteration of the `for range ticker.C` body of `healthChecks`
(main.go lines 63–99): under the server's mutex, set `IsHealthy` to `false`
on transport error, to `false` on a non-200 status, and to `true` on a 200
status. -/
def healthCheckTick (s : Server) (outcome : ProbeOutcome) : Server :=
  match outcome with
  | ProbeOutcome.transportError => { s with IsHealthy := false }
  | ProbeOutcome.response statusCode =>
    if statusCode ≠ 200 then { s with IsHealthy := false }
    else { s with IsHealthy := true }

/-- The `healthChecks` probe loop as a fold over the sequence of probe
outcomes observed at the ticker instants: errors are printed, never
propagated, so the loop processes every outcome and continues forever. -/
def healthChecks (s : Server) (outcomes : List ProbeOutcome) : Server :=
  outcomes.foldl healthCheckTick s

/-- Observable outcome of the dispatch handler registered in `main`
(lines 144–155): either the 503 "No healthy server available" error
(no forwarding attempted — the constructor carries no target), or a
forward to the selected server, with the `X-Forwarded-Server` response
header set to that server's URL. -/
inductive DispatchResult where
  | unavailable : DispatchResult
  | proxied (xForwardedServer : String) (target : String) : DispatchResult
deriving DecidableEq, Repr

/-- The dispatch handler: call `getNextServer`; on `nil` answer 503, else
annotate the response with the chosen server's URL and reverse-proxy to it. -/
def dispatchRequest (lb : LoadBalancer) (servers : List Server) :
    DispatchResult × LoadBalancer :=
  let r := getNextServer lb servers
  match r.1 with
  | none => (DispatchResult.unavailable, r.2.1)
  | some server => (DispatchResult.proxied server.URL server.URL, r.2.1)

/-- Server construction in `main` (lines 134–142): each configured URL
yields `&Server{URL: u, IsHealthy: true}`, appended in configuration
order. -/
def initServers (urls : List String) : List Server :=
  urls.map (fun u => { URL := u, IsHealthy := true })

/-- `lb := LoadBalancer{Current: 0}` in `main`. -/
def initLoadBalancer : LoadBalancer := { Current := 0 }

/-- Writing back the element read at an index leaves a list unchanged. -/
theorem set_getD_self (l : List Server) (i : Nat) :
    l.set i (l.getD i defaultServer) = l := by
  induction l generalizing i with
  | nil => rfl
  | cons a l ih =>
    cases i with
    | zero => simp [List.getD]
    | succ i => simpa [List.getD] using ih i

/-- Unfolding of one loop iteration after collapsing the write-back. -/
theorem getNextServerLoop_succ (fuel current : Nat) (servers : List Server) :
    getNextServerLoop (fuel + 1) current servers =
      (if (servers.getD (current % servers.length) defaultServer).IsHealthy then
        (some (servers.getD (current % servers.length) defaultServer), current + 1, servers)
      else getNextServerLoop fuel (current + 1) servers) := by
  simp only [getNextServerLoop, set_getD_self]

/-- The scan loop never modifies the server list. -/
theorem getNextServerLoop_servers (fuel current : Nat) (servers : List Server) :
    (getNextServerLoop fuel current servers).2.2 = servers := by
  induction fuel generalizing current with
  | zero => rfl
  | succ fuel ih =>
    rw [getNextServerLoop_succ]
    split
    · rfl
    · exact ih (current + 1)

/-- The cursor coming out of the scan loop is the incoming cursor plus the
number of iterations executed, which is at most the fuel. -/
theorem getNextServerLoop_cursor_le (fuel current : Nat) (servers : List Server) :
    current ≤ (getNextServerLoop fuel current servers).2.1 ∧
      (getNextServerLoop fuel current servers).2.1 ≤ current + fuel := by
  induction fuel generalizing current with
  | zero => exact ⟨Nat.le_refl _, Nat.le_refl _⟩
  | succ fuel ih =>
    rw [getNextServerLoop_succ]
    split
    · exact ⟨Nat.le_succ _, by show current + 1 ≤ current + (fuel + 1); omega⟩
    · refine ⟨Nat.le_trans (Nat.le_succ _) (ih (current + 1)).1, ?_⟩
      have h := (ih (current + 1)).2
      omega

/-- With at least one iteration of fuel, the loop increments the cursor at
least once (the increment is unconditional). -/
theorem getNextServerLoop_cursor_lt (fuel current : Nat) (servers : List Server) :
    current < (getNextServerLoop (fuel + 1) current servers).2.1 := by
  rw [getNextServerLoop_succ]
  split
  · exact Nat.lt_succ_self _
  · exact Nat.lt_of_lt_of_le (Nat.lt_succ_self _)
      (getNextServerLoop_cursor_le fuel (current + 1) servers).1

/-- A server returned by the scan loop has `IsHealthy = true`. -/
theorem getNextServerLoop_healthy (fuel current : Nat) (servers : List Server)
    (s : Server) (h : (getNextServerLoop fuel current servers).1 = some s) :
    s.IsHealthy = true := by
  induction fuel generalizing current with
  | zero => exact absurd h (by simp [getNextServerLoop])
  | succ fuel ih =>
    rw [getNextServerLoop_succ] at h
    by_cases hh : (servers.getD (current % servers.length) defaultServer).IsHealthy
    · rw [if_pos hh] at h
      cases h
      exact hh
    · rw [if_neg hh] at h
      exact ih (current + 1) h

/-- If every server is unhealthy the loop exhausts its fuel, returns `none`
and advances the cursor by exactly the fuel (one health-flag read per step). -/
theorem getNextServerLoop_all_unhealthy (fuel current : Nat) (servers : List Server)
    (hne : servers ≠ []) (hall : ∀ s ∈ servers, s.IsHealthy = false) :
    getNextServerLoop fuel current servers = (none, current + fuel, servers) := by
  induction fuel generalizing current with
  | zero => rfl
  | succ fuel ih =>
    have hlen : 0 < servers.length := List.length_pos.mpr hne
    have hidx : current % servers.length < servers.length := Nat.mod_lt _ hlen
    have hmem : servers.getD (current % servers.length) defaultServer ∈ servers := by
      rw [List.getD_eq_getElem _ _ hidx]
      exact List.getElem_mem hidx
    rw [getNextServerLoop_succ, if_neg (by rw [hall _ hmem]; exact Bool.false_ne_true),
      ih (current + 1)]
    have : current + 1 + fuel = current + (fuel + 1) := by omega
    rw [this]

/-- If the server at the current cursor index is healthy, one iteration
returns it and advances the cursor by one. -/
theorem getNextServerLoop_healthy_at (fuel current : Nat) (servers : List Server)
    (h : (servers.getD (current % servers.length) defaultServer).IsHealthy = true) :
    getNextServerLoop (fuel + 1) current servers =
      (some (servers.getD (current % servers.length) defaultServer),
        current + 1, servers) := by
  rw [getNextServerLoop_succ, if_pos h]

/-- If the server at the cursor index is unhealthy but the one at the next
index is healthy, the call skips the former and returns the latter,
advancing the cursor by two. -/
theorem getNextServerLoop_skip_one (fuel current : Nat) (servers : List Server)
    (h0 : (servers.getD (current % servers.length) defaultServer).IsHealthy = false)
    (h1 : (servers.getD ((current + 1) % servers.length) defaultServer).IsHealthy = true) :
    getNextServerLoop (fuel + 2) current servers =
      (some (servers.getD ((current + 1) % servers.length) defaultServer),
        current + 2, servers) := by
  rw [getNextServerLoop_succ, if_neg (by rw [h0]; exact Bool.false_ne_true),
    getNextServerLoop_healthy_at fuel _ _ h1]

/-- `getNextServer` on a non-empty list whose cursor points at a healthy
server: that server is returned and the cursor advances by one. -/
theorem getNextServer_healthy_at (lb : LoadBalancer) (servers : List Server)
    (hne : servers ≠ [])
    (h : (servers.getD (lb.Current % servers.length) defaultServer).IsHealthy = true) :
    getNextServer lb servers =
      (some (servers.getD (lb.Current % servers.length) defaultServer),
        ⟨lb.Current + 1⟩, servers) := by
  cases servers with
  | nil => exact absurd rfl hne
  | cons a l =>
    simp only [getNextServer, List.length_cons,
      getNextServerLoop_healthy_at l.length lb.Current (a :: l) h]

/-- `getNextServer` on a list of length at least two whose cursor points at
an unhealthy server followed (cyclically) by a healthy one: the unhealthy
candidate is skipped, the healthy one is returned, and the cursor has
advanced twice (once per attempt). -/
theorem getNextServer_skip_one (lb : LoadBalancer) (servers : List Server)
    (h2 : 2 ≤ servers.length)
    (h0 : (servers.getD (lb.Current % servers.length) defaultServer).IsHealthy = false)
    (h1 : (servers.getD ((lb.Current + 1) % servers.length) defaultServer).IsHealthy = true) :
    getNextServer lb servers =
      (some (servers.getD ((lb.Current + 1) % servers.length) defaultServer),
        ⟨lb.Current + 2⟩, servers) := by
  cases servers with
  | nil => exact absurd h2 (by simp)
  | cons a l =>
    cases l with
    | nil => exact absurd h2 (by simp)
    | cons b l =>
      simp only [getNextServer, show (a :: b :: l).length = l.length + 2 by simp,
        getNextServerLoop_skip_one l.length lb.Current (a :: b :: l) h0 h1]

/-- On a non-empty all-healthy list, `getNextServer` returns the server at
index `Current mod length` and advances the cursor by exactly one. -/
theorem getNextServer_all_healthy (lb : LoadBalancer) (servers : List Server)
    (hne : servers ≠ []) (hall : ∀ s ∈ servers, s.IsHealthy = true) :
    getNextServer lb servers =
      (some (servers.getD (lb.Current % servers.length) defaultServer),
        ⟨lb.Current + 1⟩, servers) := by
  have hlen : 0 < servers.length := List.length_pos.mpr hne
  have hidx : lb.Current % servers.length < servers.length := Nat.mod_lt _ hlen
  refine getNextServer_healthy_at lb servers hne (hall _ ?_)
  rw [List.getD_eq_getElem _ _ hidx]
  exact List.getElem_mem hidx


/-- On an all-healthy list the cursor advances by exactly one per call. -/
theorem lbAfterCalls_all_healthy (servers : List Server) (c : Nat)
    (hne : servers ≠ []) (hall : ∀ s ∈ servers, s.IsHealthy = true) (k : Nat) :
    lbAfterCalls servers ⟨c⟩ k = ⟨c + k⟩ := by
  induction k with
  | zero => rfl
  | succ k ih =>
    show (getNextServer (lbAfterCalls servers ⟨c⟩ k) servers).2.1 = _
    rw [ih, getNextServer_all_healthy ⟨c + k⟩ servers hne hall]
    rfl

/-- On an all-healthy list the `(k+1)`-th call returns the server at index
`k mod length`. -/
theorem callResult_all_healthy (servers : List Server)
    (hne : servers ≠ []) (hall : ∀ s ∈ servers, s.IsHealthy = true) (k : Nat) :
    callResult servers ⟨0⟩ k =
      some (servers.getD (k % servers.length) defaultServer) := by
  show (getNextServer (lbAfterCalls servers ⟨0⟩ k) servers).1 = _
  rw [lbAfterCalls_all_healthy servers 0 hne hall k,
    getNextServer_all_healthy ⟨0 + k⟩ servers hne hall]
  simp

/-- C1: for an all-healthy backend list of size `N`, starting from cursor 0,
`N` consecutive calls to `getNextServer` return each backend exactly once in
the order of the original list (the result sequence is the list itself), and
the `(N+1)`-th call returns the first backend again. -/
theorem getNextServer_roundRobin_cycle (servers : List Server) (hne : servers ≠ [])
    (hall : ∀ s ∈ servers, s.IsHealthy = true) :
    callResults servers ⟨0⟩ servers.length = servers.map some ∧
    callResult servers ⟨0⟩ servers.length = servers.head? := by
  constructor
  · refine List.ext_getElem (by simp [callResults]) ?_
    intro k h1 h2
    have hk : k < servers.length := by simpa [callResults] using h1
    simp only [callResults, List.getElem_map, List.getElem_range]
    rw [callResult_all_healthy servers hne hall k, Nat.mod_eq_of_lt hk,
      List.getD_eq_getElem _ _ hk]
  · rw [callResult_all_healthy servers hne hall servers.length, Nat.mod_self]
    cases servers with
    | nil => exact absurd rfl hne
    | cons a l => simp [List.getD]

/-- Any server returned by `getNextServer` has `IsHealthy = true`: the
selector never returns an unhealthy server. -/
theorem getNextServer_result_healthy (lb : LoadBalancer) (servers : List Server)
    (s : Server) (h : (getNextServer lb servers).1 = some s) :
    s.IsHealthy = true :=
  getNextServerLoop_healthy servers.length lb.Current servers s h

/-- One call under "exactly one unhealthy backend, at index `j`", starting
from a cursor `c` that is a valid index: if `c ≠ j` the server at `c` is
returned and the cursor advances once; if `c = j` the unhealthy candidate is
skipped, the server at `j + 1` is returned and the cursor advances twice. -/
theorem getNextServer_oneUnhealthy_step (servers : List Server) (j : Nat)
    (hj : j < servers.length)
    (hju : (servers.getD j defaultServer).IsHealthy = false)
    (hh : ∀ i, i < servers.length → i ≠ j →
      (servers.getD i defaultServer).IsHealthy = true)
    (c : Nat) (hc : c < servers.length) (hcj : c = j → j + 1 < servers.length) :
    getNextServer ⟨c⟩ servers =
      (some (servers.getD (if c = j then j + 1 else c) defaultServer),
        ⟨if c = j then j + 2 else c + 1⟩, servers) := by
  have e0 : c % servers.length = c := Nat.mod_eq_of_lt hc
  by_cases hcase : c = j
  · subst hcase
    have hj1 : c + 1 < servers.length := hcj rfl
    have e1 : (c + 1) % servers.length = c + 1 := Nat.mod_eq_of_lt hj1
    have hres := getNextServer_skip_one ⟨c⟩ servers (by omega)
      (by simpa [e0] using hju)
      (by simpa [e1] using hh (c + 1) hj1 (by omega))
    simpa [e1] using hres
  · have hne : servers ≠ [] := List.length_pos.mp (by omega)
    have hres := getNextServer_healthy_at ⟨c⟩ servers hne
      (by simpa [e0] using hh c hc hcase)
    simpa [e0, hcase] using hres

/-- Cursor-only corollary of `getNextServer_oneUnhealthy_step`. -/
theorem getNextServer_oneUnhealthy_cursor (servers : List Server) (j : Nat)
    (hj : j < servers.length)
    (hju : (servers.getD j defaultServer).IsHealthy = false)
    (hh : ∀ i, i < servers.length → i ≠ j →
      (servers.getD i defaultServer).IsHealthy = true)
    (c : Nat) (hc : c < servers.length) (hcj : c = j → j + 1 < servers.length) :
    (getNextServer ⟨c⟩ servers).2.1 = ⟨if c = j then j + 2 else c + 1⟩ := by
  rw [getNextServer_oneUnhealthy_step servers j hj hju hh c hc hcj]

/-- Result-only corollary of `getNextServer_oneUnhealthy_step`. -/
theorem getNextServer_oneUnhealthy_result (servers : List Server) (j : Nat)
    (hj : j < servers.length)
    (hju : (servers.getD j defaultServer).IsHealthy = false)
    (hh : ∀ i, i < servers.length → i ≠ j →
      (servers.getD i defaultServer).IsHealthy = true)
    (c : Nat) (hc : c < servers.length) (hcj : c = j → j + 1 < servers.length) :
    (getNextServer ⟨c⟩ servers).1 =
      some (servers.getD (if c = j then j + 1 else c) defaultServer) := by
  rw [getNextServer_oneUnhealthy_step servers j hj hju hh c hc hcj]

/-- With one unhealthy backend at index `j` and cursor starting at 0, the
cursor after `k` calls within the first sweep is `k`, plus one extra step
once the unhealthy index has been skipped. -/
theorem lbAfterCalls_oneUnhealthy (servers : List Server) (j : Nat)
    (hj : j < servers.length)
    (hju : (servers.getD j defaultServer).IsHealthy = false)
    (hh : ∀ i, i < servers.length → i ≠ j →
      (servers.getD i defaultServer).IsHealthy = true) :
    ∀ k, k ≤ servers.length - 1 →
      lbAfterCalls servers ⟨0⟩ k = ⟨if k ≤ j then k else k + 1⟩ := by
  intro k
  induction k with
  | zero => intro _; simp [lbAfterCalls]
  | succ k ih =>
    intro hk
    have hk' : k ≤ servers.length - 1 := by omega
    show (getNextServer (lbAfterCalls servers ⟨0⟩ k) servers).2.1 = _
    rw [ih hk']
    by_cases hkj : k ≤ j
    · rw [if_pos hkj,
        getNextServer_oneUnhealthy_cursor servers j hj hju hh k (by omega) (by omega)]
      congr 1
      split_ifs <;> omega
    · rw [if_neg hkj,
        getNextServer_oneUnhealthy_cursor servers j hj hju hh (k + 1) (by omega) (by omega)]
      congr 1
      split_ifs <;> omega

/-- With one unhealthy backend at index `j` and cursor starting at 0, the
`(k+1)`-th call of the first sweep (`k < N - 1`) returns the `(k+1)`-th
healthy backend: the one at index `k`, shifted past `j` once reached. -/
theorem callResult_oneUnhealthy (servers : List Server) (j : Nat)
    (hj : j < servers.length)
    (hju : (servers.getD j defaultServer).IsHealthy = false)
    (hh : ∀ i, i < servers.length → i ≠ j →
      (servers.getD i defaultServer).IsHealthy = true)
    (k : Nat) (hk : k < servers.length - 1) :
    callResult servers ⟨0⟩ k =
      some (servers.getD (if k < j then k else k + 1) defaultServer) := by
  show (getNextServer (lbAfterCalls servers ⟨0⟩ k) servers).1 = _
  rw [lbAfterCalls_oneUnhealthy servers j hj hju hh k (by omega)]
  by_cases hkj : k ≤ j
  · rw [if_pos hkj,
      getNextServer_oneUnhealthy_result servers j hj hju hh k (by omega) (by omega)]
    have he : (if k = j then j + 1 else k) = (if k < j then k else k + 1) := by
      split_ifs <;> omega
    rw [he]
  · rw [if_neg hkj,
      getNextServer_oneUnhealthy_result servers j hj hju hh (k + 1) (by omega) (by omega)]
    have he : (if k + 1 = j then j + 1 else k + 1) = (if k < j then k else k + 1) := by
      split_ifs <;> omega
    rw [he]

/-- Reading `eraseIdx` through `getD`: removing index `j` shifts the indices
at or above `j` up by one. -/
theorem getD_eraseIdx (l : List Server) (j k : Nat) (hj : j < l.length)
    (hk : k < l.length - 1) :
    (l.eraseIdx j).getD k defaultServer =
      l.getD (if k < j then k else k + 1) defaultServer := by
  induction l generalizing j k with
  | nil => simp at hj
  | cons a l ih =>
    cases j with
    | zero =>
      rw [if_neg (Nat.not_lt_zero k)]
      rfl
    | succ j =>
      cases k with
      | zero => simp [List.eraseIdx, List.getD]
      | succ k =>
        have hj' : j < l.length := by simpa using hj
        have hk' : k < l.length - 1 := by simp at hk; omega
        by_cases hkj : k < j
        · rw [if_pos (by omega)]
          show (l.eraseIdx j).getD k defaultServer = l.getD k defaultServer
          rw [ih j k hj' hk', if_pos hkj]
        · rw [if_neg (by omega)]
          show (l.eraseIdx j).getD k defaultServer = l.getD (k + 1) defaultServer
          rw [ih j k hj' hk', if_neg hkj]

/-- C2 (amended): with exactly one unhealthy backend, at position `j`, and
the cursor starting at 0, no call (at any position, from any state) ever
returns the unhealthy backend, and the first `N - 1` calls return each of
the `N - 1` healthy backends exactly once, in the order of the original
list. -/
theorem getNextServer_oneUnhealthy_sweep (servers : List Server) (j : Nat)
    (hj : j < servers.length)
    (hju : (servers.getD j defaultServer).IsHealthy = false)
    (hh : ∀ i, i < servers.length → i ≠ j →
      (servers.getD i defaultServer).IsHealthy = true) :
    callResults servers ⟨0⟩ (servers.length - 1) = (servers.eraseIdx j).map some ∧
    ∀ lb k, callResult servers lb k ≠ some (servers.getD j defaultServer) := by
  constructor
  · have hlen := List.length_eraseIdx_add_one hj
    refine List.ext_getElem (by simp [callResults]; omega) ?_
    intro k h1 h2
    have hk : k < servers.length - 1 := by simpa [callResults] using h1
    have hk2 : k < (servers.eraseIdx j).length := by omega
    simp only [callResults, List.getElem_map, List.getElem_range]
    rw [callResult_oneUnhealthy servers j hj hju hh k hk,
      ← List.getD_eq_getElem _ defaultServer hk2,
      getD_eraseIdx servers j k hj hk]
  · intro lb k h
    have hhl := getNextServer_result_healthy (lbAfterCalls servers lb k) servers _ h
    rw [hju] at hhl
    exact Bool.false_ne_true hhl

/-- C2 counterexample: with two backends of which exactly one is unhealthy
(`N = 2`), two consecutive calls from cursor 0 return the single healthy
backend twice, not "exactly once" as the claim requires. -/
theorem getNextServer_oneUnhealthy_counterexample :
    ¬ ((callResults [⟨"a", true⟩, ⟨"b", false⟩] ⟨0⟩ 2).count
        (some ⟨"a", true⟩) = 1) := by decide

/-- Witness for C2 (amended) at three backends with the middle one
unhealthy: the first two calls return the two healthy backends in order,
and the first call does not return the unhealthy backend. -/
theorem getNextServer_oneUnhealthy_sweep_witness :
    callResults [⟨"a", true⟩, ⟨"b", false⟩, ⟨"c", true⟩] ⟨0⟩ 2 =
        [some ⟨"a", true⟩, some ⟨"c", true⟩] ∧
      callResult [⟨"a", true⟩, ⟨"b", false⟩, ⟨"c", true⟩] ⟨0⟩ 0 ≠
        some ⟨"b", false⟩ := by
  have h := getNextServer_oneUnhealthy_sweep
    [⟨"a", true⟩, ⟨"b", false⟩, ⟨"c", true⟩] 1 (by decide) (by decide) (by decide)
  exact ⟨by simpa using h.1, by simpa using h.2 ⟨0⟩ 0⟩

/-- Witness for C1: two healthy backends, two calls return them in order and
the third call restarts the cycle at the first backend. -/
theorem getNextServer_roundRobin_cycle_witness :
    callResults [⟨"a", true⟩, ⟨"b", true⟩] ⟨0⟩ 2 =
        [some ⟨"a", true⟩, some ⟨"b", true⟩] ∧
      callResult [⟨"a", true⟩, ⟨"b", true⟩] ⟨0⟩ 2 = some ⟨"a", true⟩ := by
  have h := getNextServer_roundRobin_cycle [⟨"a", true⟩, ⟨"b", true⟩]
    (by decide) (by decide)
  simpa using h


/-- C3: on a non-empty list whose servers are all unhealthy, `getNextServer`
returns `none` with the cursor advanced by exactly `N` — one unconditional
increment per iteration, and each iteration performs exactly one health-flag
read, so exactly `N` reads and no retry beyond one sweep — and the dispatcher
produces the 503 service-unavailable outcome, whose constructor carries no
forwarding target. -/
theorem getNextServer_all_unhealthy (lb : LoadBalancer) (servers : List Server)
    (hne : servers ≠ []) (hall : ∀ s ∈ servers, s.IsHealthy = false) :
    getNextServer lb servers = (none, ⟨lb.Current + servers.length⟩, servers) ∧
    (dispatchRequest lb servers).1 = DispatchResult.unavailable := by
  have h := getNextServerLoop_all_unhealthy servers.length lb.Current servers hne hall
  exact ⟨by simp only [getNextServer, h], by simp [dispatchRequest, getNextServer, h]⟩

/-- Witness for C3: two unhealthy servers, cursor 5: `none` is returned, the
cursor ends at 7 (exactly two reads), and dispatch answers unavailable. -/
theorem getNextServer_all_unhealthy_witness :
    getNextServer ⟨5⟩ [⟨"a", false⟩, ⟨"b", false⟩] =
        (none, ⟨7⟩, [⟨"a", false⟩, ⟨"b", false⟩]) ∧
      (dispatchRequest ⟨5⟩ [⟨"a", false⟩, ⟨"b", false⟩]).1 =
        DispatchResult.unavailable := by
  have h := getNextServer_all_unhealthy ⟨5⟩ [⟨"a", false⟩, ⟨"b", false⟩]
    (by decide) (by decide)
  simpa using h

/-- C4: after a probe cycle the health flag is true iff that cycle's probe
completed without transport error with HTTP status 200; on any other outcome
it is false.  The statement quantifies over the prior flag value and the
whole prior outcome history, so a single probe result fully determines the
state (no hysteresis) and the loop is shown to have processed every earlier
outcome, errors included. -/
theorem healthChecks_last_probe_decides (s : Server) (outcomes : List ProbeOutcome)
    (o : ProbeOutcome) :
    ((healthChecks s (outcomes ++ [o])).IsHealthy = true ↔
      o = ProbeOutcome.response 200) := by
  rw [healthChecks, List.foldl_append]
  cases o with
  | transportError => simp [healthCheckTick]
  | response code =>
    by_cases hc : code = 200
    · subst hc; simp [healthCheckTick]
    · simp [healthCheckTick, hc]

/-- C5: three healthy backends A, B, C and cursor 0: four calls return
A, B, C, A and leave the cursor at 4 (pointing at B); after B is marked
unhealthy, the next call skips B and returns C, and the one after returns
A. -/
theorem scenario_ABC :
    callResults [⟨"A", true⟩, ⟨"B", true⟩, ⟨"C", true⟩] ⟨0⟩ 4 =
        [some ⟨"A", true⟩, some ⟨"B", true⟩, some ⟨"C", true⟩, some ⟨"A", true⟩] ∧
      lbAfterCalls [⟨"A", true⟩, ⟨"B", true⟩, ⟨"C", true⟩] ⟨0⟩ 4 = ⟨4⟩ ∧
      callResults [⟨"A", true⟩, ⟨"B", false⟩, ⟨"C", true⟩] ⟨4⟩ 2 =
        [some ⟨"C", true⟩, some ⟨"A", true⟩] := by decide

/-- C6: a call on a non-empty list advances `Current` by the number of
attempts made — the increment is unconditional, once per attempt, also for
unhealthy candidates — so the cursor strictly increases (never reset) and
gains at most `N`. -/
theorem getNextServer_cursor_monotonic (lb : LoadBalancer) (servers : List Server)
    (hne : servers ≠ []) :
    lb.Current < ((getNextServer lb servers).2.1).Current ∧
      ((getNextServer lb servers).2.1).Current ≤ lb.Current + servers.length := by
  cases servers with
  | nil => exact absurd rfl hne
  | cons a l =>
    exact ⟨getNextServerLoop_cursor_lt l.length lb.Current (a :: l),
      (getNextServerLoop_cursor_le (a :: l).length lb.Current (a :: l)).2⟩

/-- Witness for C6: one unhealthy and one healthy server, cursor 0: the
cursor strictly increases and gains at most the list length. -/
theorem getNextServer_cursor_monotonic_witness :
    (⟨0⟩ : LoadBalancer).Current <
        ((getNextServer ⟨0⟩ [⟨"a", false⟩, ⟨"b", true⟩]).2.1).Current ∧
      ((getNextServer ⟨0⟩ [⟨"a", false⟩, ⟨"b", true⟩]).2.1).Current ≤
        (⟨0⟩ : LoadBalancer).Current + 2 :=
  getNextServer_cursor_monotonic ⟨0⟩ [⟨"a", false⟩, ⟨"b", true⟩] (by decide)

/-- C7: the dispatcher answers service-unavailable exactly when the selector
returns `nil` (and then carries no forwarding target), and whenever the
selector returns a server it forwards to that server's URL with the
`X-Forwarded-Server` header set to the same URL. -/
theorem dispatch_gated_on_selector (lb : LoadBalancer) (servers : List Server) :
    ((dispatchRequest lb servers).1 = DispatchResult.unavailable ↔
      (getNextServer lb servers).1 = none) ∧
    ∀ s, (getNextServer lb servers).1 = some s →
      (dispatchRequest lb servers).1 = DispatchResult.proxied s.URL s.URL := by
  constructor
  · cases h : (getNextServer lb servers).1 with
    | none => simp [dispatchRequest, h]
    | some s => simp [dispatchRequest, h]
  · intro s h
    simp [dispatchRequest, h]

/-- Witness for C7: a healthy server is proxied with its URL in the header;
the empty list yields the unavailable outcome. -/
theorem dispatch_gated_on_selector_witness :
    (dispatchRequest ⟨0⟩ [⟨"a", true⟩]).1 = DispatchResult.proxied "a" "a" ∧
      (dispatchRequest ⟨0⟩ ([] : List Server)).1 = DispatchResult.unavailable :=
  ⟨(dispatch_gated_on_selector ⟨0⟩ [⟨"a", true⟩]).2 ⟨"a", true⟩ (by decide),
    (dispatch_gated_on_selector ⟨0⟩ ([] : List Server)).1.mpr (by decide)⟩

/-- C8: startup creates one backend per configured URL, in configuration
order, each initialized healthy; the cursor starts at 0; and afterwards no
operation changes a backend's address or the backend list — the probe tick
only writes the health flag, and selection returns the list unchanged. -/
theorem init_state (urls : List String) :
    (initServers urls).all Server.IsHealthy = true ∧
    (initServers urls).map Server.URL = urls ∧
    initLoadBalancer.Current = 0 ∧
    (∀ s o, (healthCheckTick s o).URL = s.URL) ∧
    (∀ lb, (getNextServer lb (initServers urls)).2.2 = initServers urls) := by
  refine ⟨?_, ?_, rfl, ?_, ?_⟩
  · simp [initServers, List.all_eq_true]
  · simp only [initServers, List.map_map]
    exact List.map_id urls
  · intro s o
    cases o with
    | transportError => rfl
    | response code => simp [healthCheckTick, apply_ite Server.URL]
  · intro lb
    exact getNextServerLoop_servers _ _ _

/-- C9: on the empty server list the loop body never executes (the iteration
count is the list length, 0), so `getNextServer` returns `nil` and the whole
state — the cursor included — is unchanged; in particular no index and no
modulus is ever computed. -/
theorem getNextServer_empty (lb : LoadBalancer) :
    getNextServer lb [] = (none, lb, []) := by
  cases lb
  rfl

/-- C10: the only state `getNextServer` mutates is the cursor: the server
list — every URL, every health flag, the length and the order — is returned
exactly as passed in. -/
theorem getNextServer_frame (lb : LoadBalancer) (servers : List Server) :
    (getNextServer lb servers).2.2 = servers :=
  getNextServerLoop_servers servers.length lb.Current servers
